import Mathlib

/-!
Verification of the C++ parser-generator trait
(`src/plugins/cpp/cpp-parser-generator-trait.js`) against its
natural-language specification.

The JavaScript source is shallowly embedded: each generator method becomes a
Lean function over explicit data (strings are `String`/`List Char`, the
terminal-literal reverse map is a `String → Option Nat` lookup function,
handler registries are explicit lists threaded through the functions).
External collaborators that live outside the repository snapshot (the grammar
object, the base generator, the lexical grammar's rule-index function) are
modelled from the spec where a claim needs them; such definitions carry a
`Modelled from the spec:` doc comment.
-/

namespace CppGen

/-- The apostrophe (single-quote) character, written via its code point. -/
def sq : Char := Char.ofNat 39

/-- A one-character string holding a single quote. -/
def sqS : String := String.mk [sq]

/-- Substring containment, the embedding of JavaScript `String.includes`. -/
def strContains (s pat : String) : Bool :=
  decide (pat.data <:+: s.data)

/-- Number of positions of `cs` at which `pat` occurs (as a prefix of the
suffix starting there).  Used to state "exactly one occurrence" claims. -/
def countSub (pat : List Char) : List Char → Nat
  | [] => 0
  | c :: rest => (if pat.isPrefixOf (c :: rest) then 1 else 0) + countSub pat rest

/-! ## Table encoding (`_buildTable`, claim C2)

`_buildTable` rewrites every raw directive string of a table row into a C++
struct literal: a directive starting with `s` becomes a Shift entry carrying
the rest of the string, one starting with `r` a Reduce entry, the exact string
`acc` an Accept entry with operand `0`, and anything else a Transit entry
carrying the whole value. -/

/-- Tagged table entries, the `{Kind, Number}` pairs of the generated C++
(`TE::Shift` etc.).  The operand is kept as the raw substring exactly as the
JavaScript interpolates it. -/
inductive TableEntry where
  | Shift : String → TableEntry
  | Reduce : String → TableEntry
  | Accept : TableEntry
  | Transit : String → TableEntry
deriving DecidableEq, Repr

/-- Classification of a raw directive string, mirroring the branch structure
of the entry rewrite in `_buildTable` (`entry[0] === 's'`, `entry[0] === 'r'`,
`entry === 'acc'`, else Transit), but producing the tag instead of text. -/
def decodeEntry (e : String) : TableEntry :=
  if e.data.head? = some 's' then .Shift (String.mk e.data.tail)
  else if e.data.head? = some 'r' then .Reduce (String.mk e.data.tail)
  else if e = "acc" then .Accept
  else .Transit e

/-- Renders a tagged entry as the C++ text `_buildTable` emits for it. -/
def renderTableEntry : TableEntry → String
  | .Shift n => "\x7bTE::Shift, " ++ n ++ "\x7d"
  | .Reduce n => "\x7bTE::Reduce, " ++ n ++ "\x7d"
  | .Accept => "\x7bTE::Accept, 0\x7d"
  | .Transit v => "\x7bTE::Transit, " ++ v ++ "\x7d"

/-- The entry rewrite of `_buildTable`: `"s3"` becomes `{TE::Shift, 3}`,
`"r2"` becomes `{TE::Reduce, 2}`, `"acc"` becomes `{TE::Accept, 0}`, anything
else becomes `{TE::Transit, <value>}`. -/
def buildTableEntry (e : String) : String :=
  if e.data.head? = some 's' then "\x7bTE::Shift, " ++ String.mk e.data.tail ++ "\x7d"
  else if e.data.head? = some 'r' then "\x7bTE::Reduce, " ++ String.mk e.data.tail ++ "\x7d"
  else if e = "acc" then "\x7bTE::Accept, 0\x7d"
  else "\x7bTE::Transit, " ++ e ++ "\x7d"

/-- Re-encoding of a tagged entry into the raw short-code convention
(`s<N>`, `r<N>`, `acc`, bare value). -/
def shortCode : TableEntry → String
  | .Shift n => "s" ++ n
  | .Reduce n => "r" ++ n
  | .Accept => "acc"
  | .Transit v => v

/-- The per-row rewrite of `_buildTable`: every entry of a row is replaced by
its C++ struct literal, keys unchanged. -/
def buildRow (row : List (String × String)) : List (String × String) :=
  row.map (fun kv => (kv.1, buildTableEntry kv.2))

/-! ## Placeholder rewriting (`_scopeVars`, claims C5, C9, C10)

`_scopeVars` performs three textual transforms on a raw handler body:
a global replacement of `yytext` by `tokenizer.yytext`, a global replacement
of word-bounded `__` by `auto __`, and a rewrite of every
`return <value>;` statement (the regex `return\s+([^;]+?);`, applied
globally). -/

/-- The ASCII whitespace characters matched by the JavaScript `\s` class
(action code in grammars is ASCII; the astral whitespace code points of `\s`
are not modelled). -/
def isJsSpace (c : Char) : Bool :=
  c == ' ' || c == '\t' || c == '\n' || c == '\r' || c == '\x0b' || c == '\x0c'

/-- The JavaScript `\w` class: ASCII letters, digits and underscore. -/
def isWordChar (c : Char) : Bool :=
  c.isAlpha || c.isDigit || c == '_'

/-- Whether `c` is a single or double quote, the class `['"]` of the
quote-stripping regex. -/
def isQuote (c : Char) : Bool :=
  c == sq || c == '"'

/-- `token.replace(/^['"]|['"]$/g, '')`: removes one leading quote if
present, then one trailing quote of the remainder if present. -/
def stripQuotes (t : List Char) : List Char :=
  let t1 := match t with
    | c :: rest => if isQuote c then rest else t
    | [] => []
  match t1.getLast? with
  | some c => if isQuote c then t1.dropLast else t1
  | none => t1

/-- `code.replace(/yytext/g, 'tokenizer.yytext')`: every occurrence of
`yytext` is replaced, scanning left to right without rescanning replacement
text. -/
def replaceYytext : List Char → List Char
  | 'y' :: 'y' :: 't' :: 'e' :: 'x' :: 't' :: rest =>
    ("tokenizer.yytext").data ++ replaceYytext rest
  | c :: rest => c :: replaceYytext rest
  | [] => []

/-- No word character on the left of the current position (`\b` with the
previous character tracked explicitly; `none` is the start of the string). -/
def boundaryBefore (prev : Option Char) : Bool :=
  match prev with
  | none => true
  | some c => !(isWordChar c)

/-- No word character at the head of `l` (`\b` on the right, end of string
counts as a boundary). -/
def boundaryAfterL (l : List Char) : Bool :=
  match l with
  | [] => true
  | c :: _ => !(isWordChar c)

/-- `code.replace(/\b__\b/g, 'auto __')`: each word-bounded occurrence of
`__` becomes `auto __`; the scan continues after the matched text. -/
def replaceUnderscoreAux (prev : Option Char) : List Char → List Char
  | [] => []
  | '_' :: '_' :: r2 =>
    if boundaryBefore prev && boundaryAfterL r2 then
      ("auto __").data ++ replaceUnderscoreAux (some '_') r2
    else '_' :: replaceUnderscoreAux (some '_') ('_' :: r2)
  | c :: rest => c :: replaceUnderscoreAux (some c) rest

/-- The match attempt of `return\s+([^;]+?);` at the start of `after`, which
is the text following the literal `return`.  The greedy `\s+` and the lazy
`[^;]+?` interact: the token is the text between the maximal whitespace run
and the first following `;`; when the first non-space character is already
`;`, the engine backtracks one whitespace character into the capture
(possible only when the run has length at least two). -/
def matchSpaceTok (after : List Char) : Option (List Char × List Char) :=
  let ws := after.takeWhile isJsSpace
  if ws.length = 0 then none
  else
    match after.dropWhile isJsSpace with
    | [] => none
    | c :: r =>
      if c = ';' then
        if 2 ≤ ws.length then some ([ws.getLastD ' '], r) else none
      else
        let tok := (c :: r).takeWhile (fun x => x != ';')
        match (c :: r).dropWhile (fun x => x != ';') with
        | [] => none
        | _ :: r2 => some (tok, r2)

/-- One match attempt of the global regex `return\s+([^;]+?);` at the current
position: the position must start with the literal `return`.  Returns the
captured token and the text after the consumed match. -/
def tryMatchReturn : List Char → Option (List Char × List Char)
  | 'r' :: 'e' :: 't' :: 'u' :: 'r' :: 'n' :: after => matchSpaceTok after
  | _ => none

/-- The replacement computed for one matched `return` statement: the token is
quote-stripped; `%empty`, `nullptr` and `NULL` yield the reserved empty
sentinel; a token recorded in the terminal-literal reverse map `m` yields the
generated `TOKEN_TYPE_<code>` member; anything else is qualified with
`TokenType::` as is. -/
def replacementFor (m : String → Option Nat) (tok : List Char) : List Char :=
  let t := String.mk (stripQuotes tok)
  if t = "%empty" ∨ t = "nullptr" ∨ t = "NULL" then
    ("return TokenType::__EMPTY;").data
  else
    match m t with
    | some code => ("return TokenType::TOKEN_TYPE_" ++ toString code ++ ";").data
    | none => ("return TokenType::" ++ t ++ ";").data

/-- Fuel-indexed scan of the global `return`-statement rewrite: at each
position either the regex matches (the replacement is emitted and the scan
resumes after the match) or the scan advances one character.  Every step
consumes at least one character, so fuel equal to the length of the text
makes the fuel bound unreachable. -/
def scopeReturnsFuel (m : String → Option Nat) : Nat → List Char → List Char
  | 0, cs => cs
  | fuel + 1, cs =>
    match tryMatchReturn cs with
    | some (tok, rest) => replacementFor m tok ++ scopeReturnsFuel m fuel rest
    | none =>
      match cs with
      | [] => []
      | c :: t => c :: scopeReturnsFuel m fuel t

/-- `code.replace(/return\s+([^;]+?);/g, ...)`: the global rewrite of
`return` statements. -/
def scopeReturns (m : String → Option Nat) (cs : List Char) : List Char :=
  scopeReturnsFuel m cs.length cs

/-- `_scopeVars` over character lists: the three transforms in source
order. -/
def scopeVarsL (m : String → Option Nat) (code : List Char) : List Char :=
  scopeReturns m (replaceUnderscoreAux none (replaceYytext code))

/-- The embedding of `_scopeVars`, parameterised by the terminal-literal
reverse map `this._terminalsMap`. -/
def scopeVars (m : String → Option Nat) (code : String) : String :=
  String.mk (scopeVarsL m code.data)

/-! ## Action assembly (`_actionFromHandler`, `generateLexRules`,
claims C1, C6) -/

/-- The test `/;\s*$/.test(handler)`: the text ends with `;` followed only by
whitespace. -/
def endsWithSemi (s : String) : Bool :=
  match s.data.reverse.dropWhile isJsSpace with
  | c :: _ => c = ';'
  | [] => false

/-- JavaScript `String.trim`: whitespace removed from both ends. -/
def jsTrim (s : String) : String :=
  String.mk (((s.data.dropWhile isJsSpace).reverse.dropWhile isJsSpace).reverse)

/-- The embedding of `_actionFromHandler`: terminate the handler with `;` if
needed, apply `_scopeVars`, trim, and fall back to `return nullptr;` when the
result is empty. -/
def actionFromHandler (m : String → Option Nat) (handler : String) : String :=
  let h := if endsWithSemi handler then handler else handler ++ ";"
  let a := jsTrim (scopeVars m h)
  if a = "" then "return nullptr;" else a

/-- The `return` synthesis step of `generateLexRules`: a raw lexical handler
that does not contain `return` is prefixed with `return `. -/
def synthReturn (handler : String) : String :=
  if strContains handler "return" then handler else "return " ++ handler

/-! ## Production handlers (claims C1, C3)

`buildSemanticAction` turns a production's raw action into a C++ handler
body: `_actionFromHandler`, then a pop-prologue over the right-hand-side
positions in reverse order, then a push-epilogue, and registers the body in
the `_productionHandlers` list, returning a 1-based `"_handlerN"`
reference. -/

/-- A production as this backend queries it: the right-hand-side symbols
(symbols are opaque names, classified as tokens by the grammar's
`isTokenSymbol` test), the epsilon test, the propagate-token test and the
raw semantic action (`getSemanticActionCode`, `none` when absent). -/
structure Production where
  rhs : List String
  isEpsilon : Bool
  derivesPropagatingToken : Bool
  rawAction : Option String

/-- Per-position info computed by `_getParamsInfo`: whether the action text
mentions the `_i` placeholder and whether the position's symbol is a
token. -/
structure ParamInfo where
  isUsed : Bool
  isToken : Bool
deriving DecidableEq, Repr

/-- The traversal of `production.getRHS().forEach((symbol, index) => ...)`:
builds the ordered `_1 .. _K` info entries starting at index `i`. -/
def getParamsInfoAux (isTok : String → Bool) (action : String) :
    List String → Nat → List (String × ParamInfo)
  | [], _ => []
  | s :: rest, i =>
    ("_" ++ toString (i + 1),
      { isUsed := strContains action ("_" ++ toString (i + 1)),
        isToken := isTok s }) ::
    getParamsInfoAux isTok action rest (i + 1)

/-- The embedding of `_getParamsInfo`: empty for epsilon productions,
otherwise one entry per right-hand-side position in order. -/
def getParamsInfo (isTok : String → Bool) (p : Production) (action : String) :
    List (String × ParamInfo) :=
  if p.isEpsilon then [] else getParamsInfoAux isTok action p.rhs 0

/-- The pop statement generated for one argument entry: token stack when the
position's symbol is a token or the production propagates a token, value
stack otherwise; a named binding only when the action uses the
placeholder. -/
def popLine (p : Production) (name : String) (info : ParamInfo) : String :=
  if info.isToken || p.derivesPropagatingToken then
    if info.isUsed then "auto " ++ name ++ " = POP_T();"
    else "parser.tokensStack.pop_back();"
  else
    if info.isUsed then "auto " ++ name ++ " = POP_V();"
    else "parser.valuesStack.pop_back();"

/-- The pop statements of `_generateHandlerPrologue`, produced by iterating
the argument entries in reverse order (`Object.keys(argsInfo).reverse()`). -/
def generateHandlerPrologueLines (p : Production)
    (argsInfo : List (String × ParamInfo)) : List String :=
  argsInfo.reverse.map (fun x => popLine p x.1 x.2)

/-- The embedding of `_generateHandlerPrologue`: comment header, the pop
statements joined by newlines, a blank line, then the action. -/
def generateHandlerPrologue (p : Production) (action : String)
    (argsInfo : List (String × ParamInfo)) : String :=
  "// Semantic action prologue.\n" ++
    String.intercalate "\n" (generateHandlerPrologueLines p argsInfo) ++
    "\n\n" ++ action

/-- The embedding of `_generateHandlerEpilogue`: the action followed by a
single push of the result, `PUSH_TR` when the production propagates a token
and `PUSH_VR` otherwise. -/
def generateHandlerEpilogue (p : Production) (action : String) : String :=
  action ++ "\n\n // Semantic action epilogue.\n" ++
    (if p.derivesPropagatingToken then "PUSH_TR" else "PUSH_VR") ++ "();\n"

/-- A registered production handler: parameter list and generated body
(an entry of `this._productionHandlers`). -/
structure ProdHandler where
  args : List String
  action : String

/-- The embedding of `buildSemanticAction`: `none` when the production has no
raw action; otherwise the assembled body is appended to the handler list and
the returned reference is `"_handlerN"` (double quotes included) with `N` the
new length of the list. -/
def buildSemanticAction (isTok : String → Bool) (m : String → Option Nat)
    (st : List ProdHandler) (p : Production) :
    List ProdHandler × Option String :=
  match p.rawAction with
  | none => (st, none)
  | some a =>
    let a1 := actionFromHandler m a
    let info := getParamsInfo isTok p a1
    let a2 := generateHandlerPrologue p a1 info
    let a3 := generateHandlerEpilogue p a2
    let st1 := st ++ [⟨["yyparse& parser"], a3⟩]
    (st1, some ("\"_handler" ++ toString st1.length ++ "\""))

/-- Modelled from the spec: the default reducer the caller must synthesize
for a production without a raw action (spec, section 4.3 step 1: such
productions still occupy a handler slot; the base generator that does this is
not part of the repository snapshot).  Its body performs only stack
bookkeeping; only the slot it occupies matters to the indexing claims. -/
def defaultHandlerRecord : ProdHandler :=
  ⟨["yyparse& parser"], "// Default reducer.\nPUSH_VR();\n"⟩

/-- Modelled from the spec: the caller step for one production (the base
generator is outside the repository snapshot).  The production is passed to
`buildSemanticAction`; when that yields no handler the caller appends the
default reducer so the production still occupies a slot, and the effective
reference is the 1-based position of that slot. -/
def buildOneSemanticAction (isTok : String → Bool) (m : String → Option Nat)
    (st : List ProdHandler) (p : Production) : List ProdHandler × String :=
  match buildSemanticAction isTok m st p with
  | (st1, some r) => (st1, r)
  | (st1, none) =>
    let st2 := st1 ++ [defaultHandlerRecord]
    (st2, "\"_handler" ++ toString st2.length ++ "\"")

/-- Modelled from the spec: the caller loop over the ordered productions,
collecting the handler registry and the per-production handler references. -/
def buildAllSemanticActionsAux (isTok : String → Bool) (m : String → Option Nat) :
    List Production → List ProdHandler → List ProdHandler × List String
  | [], st => (st, [])
  | p :: rest, st =>
    let r2 := buildOneSemanticAction isTok m st p
    let rF := buildAllSemanticActionsAux isTok m rest r2.1
    (rF.1, r2.2 :: rF.2)

/-- The full semantic-action pass over a fresh generation run (the handler
registry starts empty). -/
def buildAllSemanticActions (isTok : String → Bool) (m : String → Option Nat)
    (ps : List Production) : List ProdHandler × List String :=
  buildAllSemanticActionsAux isTok m ps []

/-- The indexed rewrite of `generateProductionsData`: the third slot of every
raw production data row is overwritten with `&_handlerN`, `N` being the row's
1-based position, and the row is joined into a braced literal. -/
def generateProductionsDataAux :
    List (String × String × String) → Nat → List String
  | [], _ => []
  | d :: rest, i =>
    ("\x7b" ++ d.1 ++ ", " ++ d.2.1 ++ ", &_handler" ++ toString (i + 1) ++ "\x7d") ::
    generateProductionsDataAux rest (i + 1)

/-- The embedding of `generateProductionsData` (the raw production rows come
from the base generator; only their count and first two fields matter
here). -/
def generateProductionsData (raw : List (String × String × String)) : List String :=
  generateProductionsDataAux raw 0

/-! ## Lexical rules (claims C4, C6) -/

/-- A lexical rule as this backend queries it: raw matcher text and raw
handler text. -/
structure LexRule where
  rawMatcher : String
  rawHandler : String

/-- A registered lexical handler (an entry of `this._lexHandlers`). -/
structure LexHandler where
  args : String
  action : String

/-- The loop body of `generateLexRules`: for each rule, synthesize a
`return` if needed, build the action, append the handler record, and emit the
`{std::regex(R"(<matcher>)"), &_lexRuleN}` entry where `N` is the new length
of the handler list. -/
def generateLexRulesAux (m : String → Option Nat) :
    List LexRule → List LexHandler → List LexHandler × List String
  | [], hs => (hs, [])
  | r :: rest, hs =>
    let handler := synthReturn r.rawHandler
    let action := actionFromHandler m handler
    let hs1 := hs ++ [⟨"const Tokenizer& tokenizer, const std::string& yytext", action⟩]
    let entry := "\x7bstd::regex(R\"(" ++ r.rawMatcher ++ ")\"), &_lexRule" ++
      toString hs1.length ++ "\x7d"
    let rF := generateLexRulesAux m rest hs1
    (rF.1, entry :: rF.2)

/-- The embedding of `generateLexRules` over a fresh generation run (the
`_lexHandlers` list starts empty). -/
def generateLexRules (m : String → Option Nat) (rules : List LexRule) :
    List LexHandler × List String :=
  generateLexRulesAux m rules []

/-- Modelled from the spec: `LexicalGrammar.getRuleIndex`, the stable
rule-to-index function supplied by the lexical grammar (outside the
repository snapshot).  Per the section 4.4 guarantee the canonical index of a
rule is its 1-based position in declaration order; a rule is referenced here
by its 0-based position `r` in the ordered rule list. -/
def getRuleIndex (r : Nat) : Nat := r + 1

/-- The embedding of `generateLexRulesByStartConditions`: every start
condition maps to the canonical indices of its rules (rules referenced by
their 0-based position in the ordered rule list). -/
def generateLexRulesByStartConditions (conds : List (String × List Nat)) :
    List (String × List Nat) :=
  conds.map (fun ce => ("TokenizerState::" ++ ce.1, ce.2.map getRuleIndex))

/-! ## Token types (`generateTokenTypes`, claims C7, C10) -/

/-- The loop of `generateTokenTypes` over the ordered `(terminal, code)`
pairs: a declared named token emits `<name> = <code>`; otherwise the
terminal-literal reverse map records the terminal first, and then `$` emits
the reserved `__EOF` member while anything else emits the generated
`TOKEN_TYPE_<code>` placeholder. -/
def generateTokenTypesAux (declared : List String) :
    List (String × Nat) → (String → Option Nat) → List String × (String → Option Nat)
  | [], m => ([], m)
  | (tok, idx) :: rest, m =>
    if tok ∈ declared then
      let r := generateTokenTypesAux declared rest m
      ((tok ++ " = " ++ toString idx) :: r.1, r.2)
    else
      let m1 : String → Option Nat := fun t => if t = tok then some idx else m t
      if tok = "$" then
        let r := generateTokenTypesAux declared rest m1
        (("__EOF = " ++ toString idx) :: r.1, r.2)
      else
        let r := generateTokenTypesAux declared rest m1
        (("TOKEN_TYPE_" ++ toString idx ++ " = " ++ toString idx) :: r.1, r.2)

/-- The embedding of `generateTokenTypes`: emitted enumeration members and
the resulting terminal-literal reverse map, starting from reverse map
`m0`. -/
def generateTokenTypes (declared : List String) (tokens : List (String × Nat))
    (m0 : String → Option Nat) : List String × (String → Option Nat) :=
  generateTokenTypesAux declared tokens m0

/-- The emission rule for a single terminal, as the spec states it per
terminal (used to characterize the emitted list). -/
def emitRule (declared : List String) (ti : String × Nat) : String :=
  if ti.1 ∈ declared then ti.1 ++ " = " ++ toString ti.2
  else if ti.1 = "$" then "__EOF = " ++ toString ti.2
  else "TOKEN_TYPE_" ++ toString ti.2 ++ " = " ++ toString ti.2

/-! ## Module include (`generateModuleInclude`, claim C8) -/

/-- The tail of the first alternative of the `Value`-declaration regex after
one of the keywords `using`, `class`, `struct`: `\s+Value\b`.  The whitespace
and word character classes are disjoint, so the greedy runs are forced and no
backtracking is possible. -/
def matchAfterKw (rest : List Char) : Bool :=
  (rest.takeWhile isJsSpace).length ≠ 0 &&
    ("Value").data.isPrefixOf (rest.dropWhile isJsSpace) &&
    boundaryAfterL ((rest.dropWhile isJsSpace).drop 5)

/-- The first alternative `\b(?:using|class|struct)\s+Value\b` checked at the
current position (the leading boundary is checked by the caller). -/
def matchDeclAt (cs : List Char) : Bool :=
  (("using").data.isPrefixOf cs && matchAfterKw (cs.drop 5)) ||
  (("class").data.isPrefixOf cs && matchAfterKw (cs.drop 5)) ||
  (("struct").data.isPrefixOf cs && matchAfterKw (cs.drop 6))

/-- The second alternative `\btypedef\s+\w+\s+Value` checked at the current
position: `typedef`, whitespace, a word, whitespace, then the literal
`Value` (no trailing boundary in the source regex). -/
def matchTypedefAt (cs : List Char) : Bool :=
  ("typedef").data.isPrefixOf cs &&
    (let r1 := cs.drop 7
     (r1.takeWhile isJsSpace).length ≠ 0 &&
       (let r2 := r1.dropWhile isJsSpace
        (r2.takeWhile isWordChar).length ≠ 0 &&
          (let r3 := r2.dropWhile isWordChar
           (r3.takeWhile isJsSpace).length ≠ 0 &&
             ("Value").data.isPrefixOf (r3.dropWhile isJsSpace))))

/-- The scan of `/\b(?:using|class|struct)\s+Value\b|\btypedef\s+\w+\s+Value/`
over the whole text: the regex matches somewhere iff one alternative matches
at some position with a word boundary on its left. -/
def hasValueTypeAux (prev : Option Char) : List Char → Bool
  | [] => false
  | c :: rest =>
    (boundaryBefore prev && (matchDeclAt (c :: rest) || matchTypedefAt (c :: rest))) ||
      hasValueTypeAux (some c) rest

/-- The `hasValueType` test of `generateModuleInclude`. -/
def hasValueType (s : String) : Bool :=
  hasValueTypeAux none s.data

/-- The error text thrown when the module include declares no `Value` type
(the terminal bold escapes added by the `colors` library are modelled as
identity; the JavaScript `\C` escape is just `C`). -/
def moduleIncludeErr : String :=
  "\nC++ plugin should provide module include and define at least the Value type. Example:\n\nusing Value = <...>;\n"

/-- The embedding of `generateModuleInclude`: either the thrown error (before
any slot is written) or the list of slot writes in source order. -/
def generateModuleInclude (moduleInclude : String) :
    Except String (List (String × String)) :=
  if hasValueType moduleInclude = false then
    .error moduleIncludeErr
  else
    let onParseBegin := if strContains moduleInclude "void onParseBegin"
      then "onParseBegin(str);" else ""
    let onParseEnd := if strContains moduleInclude "void onParseEnd"
      then "onParseEnd(result);" else ""
    .ok [("ON_PARSE_BEGIN_CALL", onParseBegin),
         ("ON_PARSE_END_CALL", onParseEnd),
         ("MODULE_INCLUDE", moduleInclude)]

/-! # Theorems -/

/-- C2: every raw table-row directive is decoded into a tagged pair
preserving action kind and operand — the text `_buildTable` emits for an
entry is exactly the rendering of the decoded tag, also entry-wise inside a
row; `s<N>` decodes to Shift with operand `N`, `r<N>` to Reduce with operand
`N`, exactly `acc` to Accept with operand `0`, and any other value to Transit
carrying the value; re-encoding a decoded directive in the short-code
convention recovers the raw directive, hence its kind and operand. -/
theorem c2_table_entry_decode_roundtrip :
    (∀ e : String, buildTableEntry e = renderTableEntry (decodeEntry e))
    ∧ (∀ (row : List (String × String)) (k e : String), (k, e) ∈ row →
        (k, renderTableEntry (decodeEntry e)) ∈ buildRow row)
    ∧ (∀ op : String, decodeEntry ("s" ++ op) = TableEntry.Shift op
        ∧ shortCode (decodeEntry ("s" ++ op)) = "s" ++ op)
    ∧ (∀ op : String, decodeEntry ("r" ++ op) = TableEntry.Reduce op
        ∧ shortCode (decodeEntry ("r" ++ op)) = "r" ++ op)
    ∧ (decodeEntry "acc" = TableEntry.Accept
        ∧ shortCode (decodeEntry "acc") = "acc"
        ∧ renderTableEntry TableEntry.Accept = "\x7bTE::Accept, 0\x7d")
    ∧ (∀ v : String, v.data.head? ≠ some 's' → v.data.head? ≠ some 'r' →
        v ≠ "acc" → decodeEntry v = TableEntry.Transit v
        ∧ shortCode (decodeEntry v) = v) := by
  have key : ∀ e : String, buildTableEntry e = renderTableEntry (decodeEntry e) := by
    intro e
    simp only [buildTableEntry, decodeEntry]
    split_ifs <;> rfl
  have hs : ∀ op : String, decodeEntry ("s" ++ op) = TableEntry.Shift op := by
    intro op
    have hdata : ("s" ++ op).data = 's' :: op.data := by simp [String.data_append]
    simp only [decodeEntry, hdata, List.head?_cons, List.tail_cons]
    simp
  have hr : ∀ op : String, decodeEntry ("r" ++ op) = TableEntry.Reduce op := by
    intro op
    have hdata : ("r" ++ op).data = 'r' :: op.data := by simp [String.data_append]
    simp only [decodeEntry, hdata, List.head?_cons, List.tail_cons]
    simp
  have hacc : decodeEntry "acc" = TableEntry.Accept := by decide
  have htr : ∀ v : String, v.data.head? ≠ some 's' → v.data.head? ≠ some 'r' →
      v ≠ "acc" → decodeEntry v = TableEntry.Transit v := by
    intro v h1 h2 h3
    simp [decodeEntry, h1, h2, h3]
  refine ⟨key, ?_, ?_, ?_, ⟨hacc, ?_, rfl⟩, ?_⟩
  · intro row k e h
    simpa [buildRow, key e] using
      List.mem_map_of_mem (fun kv => (kv.1, buildTableEntry kv.2)) h
  · intro op
    exact ⟨hs op, by rw [hs op]; rfl⟩
  · intro op
    exact ⟨hr op, by rw [hr op]; rfl⟩
  · rw [hacc]; rfl
  · intro v h1 h2 h3
    exact ⟨htr v h1 h2 h3, by rw [htr v h1 h2 h3]; rfl⟩

/-- Witness for C2 at concrete directives: `s7`, `r3`, `acc` and `12` decode,
render and re-encode as the claim states. -/
theorem c2_witness :
    decodeEntry "s7" = TableEntry.Shift "7"
    ∧ buildTableEntry "s7" = "\x7bTE::Shift, 7\x7d"
    ∧ decodeEntry "r3" = TableEntry.Reduce "3"
    ∧ shortCode (decodeEntry "r3") = "r3"
    ∧ decodeEntry "acc" = TableEntry.Accept
    ∧ decodeEntry "12" = TableEntry.Transit "12"
    ∧ shortCode (decodeEntry "12") = "12" := by
  have h := c2_table_entry_decode_roundtrip
  have hs7 : decodeEntry "s7" = TableEntry.Shift "7" := by
    have := (h.2.2.1 "7").1
    rwa [show ("s" ++ "7" : String) = "s7" from rfl] at this
  have hr3 : decodeEntry "r3" = TableEntry.Reduce "3" := by
    have := (h.2.2.2.1 "3").1
    rwa [show ("r" ++ "3" : String) = "r3" from rfl] at this
  have h12 : decodeEntry "12" = TableEntry.Transit "12" :=
    (h.2.2.2.2.2 "12" (by decide) (by decide) (by decide)).1
  refine ⟨hs7, ?_, hr3, ?_, h.2.2.2.2.1.1, h12, ?_⟩
  · rw [h.1 "s7", hs7]; rfl
  · rw [hr3]; rfl
  · rw [h12]; rfl

/-- A pattern that is an infix of no suffix of `cs` occurs at no position of
`cs`. -/
theorem countSub_eq_zero_of_not_infix {pat cs : List Char}
    (h : ¬ pat <:+: cs) : countSub pat cs = 0 := by
  induction cs with
  | nil => rfl
  | cons c rest ih =>
    rw [countSub, if_neg, ih, Nat.zero_add]
    · intro hinf
      exact h (List.infix_cons hinf)
    · intro hpre
      exact h ((List.isPrefixOf_iff_prefix.mp hpre).isInfix)

set_option maxRecDepth 8000 in
/-- C8: when the module-include text contains no declaration of the required
result-value type `Value` (the `hasValueType` regex test fails),
`generateModuleInclude` throws an error whose message names the missing
`Value` declaration and shows an example, and writes none of its slots;
when the declaration is present it does not throw. -/
theorem c8_module_include_value_required (s : String) :
    (hasValueType s = false →
      generateModuleInclude s = Except.error moduleIncludeErr
      ∧ strContains moduleIncludeErr "Value" = true
      ∧ strContains moduleIncludeErr "using Value = <...>;" = true
      ∧ ∀ w : List (String × String), generateModuleInclude s ≠ Except.ok w)
    ∧ (hasValueType s = true →
      ∃ w : List (String × String), generateModuleInclude s = Except.ok w) := by
  constructor
  · intro h
    refine ⟨by simp [generateModuleInclude, h], by decide, by decide, ?_⟩
    intro w hw
    simp [generateModuleInclude, h] at hw
  · intro h
    refine ⟨[("ON_PARSE_BEGIN_CALL",
        if strContains s "void onParseBegin" then "onParseBegin(str);" else ""),
      ("ON_PARSE_END_CALL",
        if strContains s "void onParseEnd" then "onParseEnd(result);" else ""),
      ("MODULE_INCLUDE", s)], ?_⟩
    simp [generateModuleInclude, h]

/-- Witness for C8: the empty include text fails with the documented error
and produces no slot writes, while an include text declaring `Value`
succeeds. -/
theorem c8_witness :
    generateModuleInclude "" = Except.error moduleIncludeErr
    ∧ (∃ w, generateModuleInclude "using Value = int;" = Except.ok w) :=
  ⟨((c8_module_include_value_required "").1 (by decide)).1,
   (c8_module_include_value_required "using Value = int;").2 (by decide)⟩

/-- C6: a raw lexical handler body that does not contain `return` has exactly
one leading `return ` synthesized in front of the whole body, and a body that
already contains `return` is left unchanged by the synthesis step. -/
theorem c6_synthesized_return (h : String) :
    (strContains h "return" = false →
      synthReturn h = "return " ++ h
      ∧ countSub ("return").data (synthReturn h).data = 1)
    ∧ (strContains h "return" = true → synthReturn h = h) := by
  constructor
  · intro hno
    have heq : synthReturn h = "return " ++ h := by
      unfold synthReturn
      rw [if_neg]
      simp [hno]
    refine ⟨heq, ?_⟩
    have hzero : countSub ("return").data h.data = 0 := by
      apply countSub_eq_zero_of_not_infix
      simpa [strContains] using hno
    have hd : ("return " ++ h).data
        = 'r' :: 'e' :: 't' :: 'u' :: 'r' :: 'n' :: ' ' :: h.data := by
      rw [String.data_append]
      rfl
    rw [heq, hd]
    simp [countSub, List.isPrefixOf, hzero]
  · intro hyes
    unfold synthReturn
    rw [if_pos hyes]

/-- Witness for C6: the handler `NUMBER` gets exactly one leading `return`;
the handler `x; return WS` gets none. -/
theorem c6_witness :
    synthReturn "NUMBER" = "return NUMBER"
    ∧ countSub ("return").data (synthReturn "NUMBER").data = 1
    ∧ synthReturn "x; return WS" = "x; return WS" := by
  have h1 := (c6_synthesized_return "NUMBER").1 (by decide)
  have h2 := (c6_synthesized_return "x; return WS").2 (by decide)
  exact ⟨by rw [h1.1]; rfl, h1.2, h2⟩

/-- One caller step always grows the handler registry by exactly one slot and
returns the reference naming the new 1-based position. -/
theorem buildOneSemanticAction_spec (isTok : String → Bool)
    (m : String → Option Nat) (st : List ProdHandler) (p : Production) :
    (buildOneSemanticAction isTok m st p).1.length = st.length + 1
    ∧ (buildOneSemanticAction isTok m st p).2
        = "\"_handler" ++ toString (st.length + 1) ++ "\"" := by
  cases hp : p.rawAction with
  | none => simp [buildOneSemanticAction, buildSemanticAction, hp]
  | some a => simp [buildOneSemanticAction, buildSemanticAction, hp]

/-- The caller loop appends one handler slot per production, and the `i`-th
reference names position `st.length + i + 1`. -/
theorem buildAllSemanticActionsAux_spec (isTok : String → Bool)
    (m : String → Option Nat) (ps : List Production) :
    ∀ st : List ProdHandler,
      (buildAllSemanticActionsAux isTok m ps st).1.length = st.length + ps.length
      ∧ (buildAllSemanticActionsAux isTok m ps st).2.length = ps.length
      ∧ ∀ i, i < ps.length →
          (buildAllSemanticActionsAux isTok m ps st).2.getD i ""
            = "\"_handler" ++ toString (st.length + i + 1) ++ "\"" := by
  induction ps with
  | nil =>
    intro st
    refine ⟨by simp [buildAllSemanticActionsAux], by simp [buildAllSemanticActionsAux], ?_⟩
    intro i hi
    exact absurd hi (Nat.not_lt_zero i)
  | cons p rest ih =>
    intro st
    have hone := buildOneSemanticAction_spec isTok m st p
    have hrec := ih (buildOneSemanticAction isTok m st p).1
    refine ⟨?_, ?_, ?_⟩
    · show (buildAllSemanticActionsAux isTok m rest
        (buildOneSemanticAction isTok m st p).1).1.length = st.length + (rest.length + 1)
      rw [hrec.1, hone.1]
      omega
    · show ((buildOneSemanticAction isTok m st p).2 ::
        (buildAllSemanticActionsAux isTok m rest
          (buildOneSemanticAction isTok m st p).1).2).length = rest.length + 1
      simp [hrec.2.1]
    · intro i hi
      cases i with
      | zero =>
        show (buildOneSemanticAction isTok m st p).2 = _
        rw [hone.2]
      | succ j =>
        show (buildAllSemanticActionsAux isTok m rest
          (buildOneSemanticAction isTok m st p).1).2.getD j "" = _
        rw [hrec.2.2 j (by simpa using hi), hone.1]
        have : st.length + 1 + j + 1 = st.length + (j + 1) + 1 := by omega
        rw [this]

/-- The indexed production-data rewrite emits, at position `i`, a row whose
handler slot is `&_handler` followed by `k + i + 1`. -/
theorem generateProductionsDataAux_spec :
    ∀ (raw : List (String × String × String)) (k : Nat),
      (generateProductionsDataAux raw k).length = raw.length
      ∧ ∀ i, i < raw.length →
          (generateProductionsDataAux raw k).getD i ""
            = "\x7b" ++ (raw.getD i ("", "", "")).1 ++ ", "
              ++ (raw.getD i ("", "", "")).2.1
              ++ ", &_handler" ++ toString (k + i + 1) ++ "\x7d" := by
  intro raw
  induction raw with
  | nil =>
    intro k
    exact ⟨rfl, fun i hi => absurd hi (Nat.not_lt_zero i)⟩
  | cons d rest ih =>
    intro k
    refine ⟨by simp [generateProductionsDataAux, (ih (k + 1)).1], ?_⟩
    intro i hi
    cases i with
    | zero => rfl
    | succ j =>
      show (generateProductionsDataAux rest (k + 1)).getD j "" = _
      rw [(ih (k + 1)).2 j (by simpa using hi)]
      have : k + 1 + j + 1 = k + (j + 1) + 1 := by omega
      rw [this]
      rfl

/-- C3: over a fresh generation run, every production occupies exactly one
handler slot (those without a raw action occupy the caller-synthesized
default slot, as the spec requires of the caller); the slots are assigned
1-based, contiguously and monotonically in declaration order, the `N`-th
production receiving reference `"_handlerN"`; and the `N`-th row of the
productions metadata array references the same `&_handlerN`. -/
theorem c3_handler_indices_contiguous (isTok : String → Bool)
    (m : String → Option Nat) (ps : List Production)
    (raw : List (String × String × String)) :
    (buildAllSemanticActions isTok m ps).1.length = ps.length
    ∧ (buildAllSemanticActions isTok m ps).2.length = ps.length
    ∧ (∀ i, i < ps.length →
        (buildAllSemanticActions isTok m ps).2.getD i ""
          = "\"_handler" ++ toString (i + 1) ++ "\"")
    ∧ (generateProductionsData raw).length = raw.length
    ∧ (∀ i, i < raw.length →
        (generateProductionsData raw).getD i ""
          = "\x7b" ++ (raw.getD i ("", "", "")).1 ++ ", "
            ++ (raw.getD i ("", "", "")).2.1
            ++ ", &_handler" ++ toString (i + 1) ++ "\x7d") := by
  have hall := buildAllSemanticActionsAux_spec isTok m ps ([] : List ProdHandler)
  have hdata := generateProductionsDataAux_spec raw 0
  refine ⟨?_, hall.2.1, ?_, hdata.1, ?_⟩
  · rw [show (buildAllSemanticActions isTok m ps).1
      = (buildAllSemanticActionsAux isTok m ps []).1 from rfl, hall.1]
    simp
  · intro i hi
    have := hall.2.2 i hi
    simpa using this
  · intro i hi
    have := hdata.2 i hi
    simpa using this

/-- Witness for C3: two productions, the first with a raw action and the
second without one, both occupy slots and receive matching contiguous
references `_handler1`, `_handler2`, as does the metadata array. -/
theorem c3_witness :
    (buildAllSemanticActions (fun s => s == "a") (fun _ => none)
      [⟨["a"], false, true, some "_1"⟩, ⟨["A", "A"], false, false, none⟩]).2.getD 0 ""
      = "\"_handler1\""
    ∧ (buildAllSemanticActions (fun s => s == "a") (fun _ => none)
      [⟨["a"], false, true, some "_1"⟩, ⟨["A", "A"], false, false, none⟩]).2.getD 1 ""
      = "\"_handler2\""
    ∧ (buildAllSemanticActions (fun s => s == "a") (fun _ => none)
      [⟨["a"], false, true, some "_1"⟩, ⟨["A", "A"], false, false, none⟩]).1.length = 2
    ∧ (generateProductionsData [("1", "3", "x"), ("2", "3", "y")]).getD 0 ""
      = "\x7b1, 3, &_handler1\x7d"
    ∧ (generateProductionsData [("1", "3", "x"), ("2", "3", "y")]).getD 1 ""
      = "\x7b2, 3, &_handler2\x7d" := by
  have h := c3_handler_indices_contiguous (fun s => s == "a") (fun _ => none)
    [⟨["a"], false, true, some "_1"⟩, ⟨["A", "A"], false, false, none⟩]
    [("1", "3", "x"), ("2", "3", "y")]
  refine ⟨?_, ?_, h.1, ?_, ?_⟩
  · rw [h.2.2.1 0 (by decide)]; rfl
  · rw [h.2.2.1 1 (by decide)]; rfl
  · rw [h.2.2.2.2 0 (by decide)]; rfl
  · rw [h.2.2.2.2 1 (by decide)]; rfl

/-- The lexical-rule loop appends one handler per rule and emits, at position
`i`, an entry referencing `&_lexRule` at the 1-based position
`hs.length + i + 1`. -/
theorem generateLexRulesAux_spec (m : String → Option Nat)
    (rules : List LexRule) :
    ∀ hs : List LexHandler,
      (generateLexRulesAux m rules hs).1.length = hs.length + rules.length
      ∧ (generateLexRulesAux m rules hs).2.length = rules.length
      ∧ ∀ i, i < rules.length →
          (generateLexRulesAux m rules hs).2.getD i ""
            = "\x7bstd::regex(R\"(" ++ (rules.getD i ⟨"", ""⟩).rawMatcher
              ++ ")\"), &_lexRule" ++ toString (hs.length + i + 1) ++ "\x7d" := by
  induction rules with
  | nil =>
    intro hs
    exact ⟨by simp [generateLexRulesAux], by simp [generateLexRulesAux],
      fun i hi => absurd hi (Nat.not_lt_zero i)⟩
  | cons r rest ih =>
    intro hs
    have hrec := ih (hs ++
      [⟨"const Tokenizer& tokenizer, const std::string& yytext",
        actionFromHandler m (synthReturn r.rawHandler)⟩])
    refine ⟨?_, ?_, ?_⟩
    · show (generateLexRulesAux m rest _).1.length = hs.length + (rest.length + 1)
      rw [hrec.1]
      simp
      omega
    · show (_ :: (generateLexRulesAux m rest _).2).length = rest.length + 1
      simp [hrec.2.1]
    · intro i hi
      cases i with
      | zero =>
        show "\x7bstd::regex(R\"(" ++ r.rawMatcher ++ ")\"), &_lexRule"
            ++ toString ((hs ++ [_]).length) ++ "\x7d" = _
        simp
      | succ j =>
        show (generateLexRulesAux m rest _).2.getD j "" = _
        rw [hrec.2.2 j (by simpa using hi)]
        simp only [List.length_append, List.length_cons, List.length_nil]
        have : hs.length + 1 + j + 1 = hs.length + (j + 1) + 1 := by omega
        rw [this]
        rfl

/-- C4: over a fresh generation run, the handler emitted for the rule at
0-based position `i` sits at 1-based position `i + 1` in the flat lexical
handler list, and the entry emitted for that rule references exactly
`&_lexRule` at `getRuleIndex i` — the same canonical rule-to-index function
whose values the by-start-condition grouping table emits — so the flat
1-based position and the grouping's index for a rule always agree. -/
theorem c4_lex_rule_index_agreement (m : String → Option Nat)
    (rules : List LexRule) (conds : List (String × List Nat)) :
    (generateLexRules m rules).1.length = rules.length
    ∧ (generateLexRules m rules).2.length = rules.length
    ∧ (∀ i, i < rules.length →
        (generateLexRules m rules).2.getD i ""
          = "\x7bstd::regex(R\"(" ++ (rules.getD i ⟨"", ""⟩).rawMatcher
            ++ ")\"), &_lexRule" ++ toString (getRuleIndex i) ++ "\x7d")
    ∧ (∀ ce ∈ conds, ("TokenizerState::" ++ ce.1, ce.2.map getRuleIndex)
        ∈ generateLexRulesByStartConditions conds) := by
  have h := generateLexRulesAux_spec m rules ([] : List LexHandler)
  refine ⟨?_, h.2.1, ?_, ?_⟩
  · rw [show (generateLexRules m rules).1 = (generateLexRulesAux m rules []).1 from rfl,
      h.1]
    simp
  · intro i hi
    have := h.2.2 i hi
    simpa [getRuleIndex] using this
  · intro ce hce
    exact List.mem_map_of_mem _ hce

/-- Witness for C4: two rules produce flat entries referencing `_lexRule1`
and `_lexRule2`, and a start condition grouping rules `0` and `1` emits the
agreeing canonical indices `[1, 2]`. -/
theorem c4_witness :
    (generateLexRules (fun _ => none) [⟨"a", "A"⟩, ⟨"b", "B"⟩]).2.getD 0 ""
      = "\x7bstd::regex(R\"(a)\"), &_lexRule1\x7d"
    ∧ (generateLexRules (fun _ => none) [⟨"a", "A"⟩, ⟨"b", "B"⟩]).2.getD 1 ""
      = "\x7bstd::regex(R\"(b)\"), &_lexRule2\x7d"
    ∧ (generateLexRules (fun _ => none) [⟨"a", "A"⟩, ⟨"b", "B"⟩]).1.length = 2
    ∧ ("TokenizerState::INITIAL", [1, 2])
        ∈ generateLexRulesByStartConditions [("INITIAL", [0, 1])] := by
  have h := c4_lex_rule_index_agreement (fun _ => none)
    [⟨"a", "A"⟩, ⟨"b", "B"⟩] [("INITIAL", [0, 1])]
  refine ⟨?_, ?_, h.1, ?_⟩
  · rw [h.2.2.1 0 (by decide)]; rfl
  · rw [h.2.2.1 1 (by decide)]; rfl
  · have := h.2.2.2 ("INITIAL", [0, 1]) (by simp)
    simpa [getRuleIndex] using this

/-- The emitted token-type members are exactly the per-terminal emission rule
mapped over the terminals in code order. -/
theorem generateTokenTypesAux_fst (declared : List String)
    (tokens : List (String × Nat)) :
    ∀ m : String → Option Nat,
      (generateTokenTypesAux declared tokens m).1 = tokens.map (emitRule declared) := by
  induction tokens with
  | nil => intro m; rfl
  | cons ti rest ih =>
    intro m
    obtain ⟨tok, idx⟩ := ti
    by_cases hd : tok ∈ declared
    · simp [generateTokenTypesAux, hd, emitRule, ih]
    · by_cases hS : tok = "$"
      · subst hS
        simp [generateTokenTypesAux, hd, emitRule, ih]
      · simp [generateTokenTypesAux, hd, hS, emitRule, ih]

/-- A terminal always routed to the declared branch leaves the reverse map
untouched at its key. -/
theorem generateTokenTypesAux_snd_preserved (declared : List String)
    (tokens : List (String × Nat)) (t : String) :
    ∀ m : String → Option Nat, (∀ c : Nat, (t, c) ∈ tokens → t ∈ declared) →
      (generateTokenTypesAux declared tokens m).2 t = m t := by
  induction tokens with
  | nil => intro m _; rfl
  | cons ti rest ih =>
    intro m hall
    obtain ⟨tok, idx⟩ := ti
    by_cases hd : tok ∈ declared
    · have step : (generateTokenTypesAux declared ((tok, idx) :: rest) m).2
          = (generateTokenTypesAux declared rest m).2 := by
        simp [generateTokenTypesAux, hd]
      rw [step]
      exact ih m (fun c hc => hall c (List.mem_cons_of_mem _ hc))
    · have hne : t ≠ tok := by
        intro he
        subst he
        exact hd (hall idx (List.mem_cons_self _ _))
      have step : (generateTokenTypesAux declared ((tok, idx) :: rest) m).2
          = (generateTokenTypesAux declared rest
              (fun x => if x = tok then some idx else m x)).2 := by
        by_cases hS : tok = "$"
        · subst hS
          simp [generateTokenTypesAux, hd]
        · simp [generateTokenTypesAux, hd, hS]
      rw [step, ih _ (fun c hc => hall c (List.mem_cons_of_mem _ hc))]
      simp [hne]

/-- A non-declared terminal is recorded in the reverse map with its code
(terminal keys assumed distinct, as they are in the tokens object). -/
theorem generateTokenTypesAux_snd_recorded (declared : List String)
    (tokens : List (String × Nat)) (t : String) (c : Nat) :
    ∀ m : String → Option Nat, (t, c) ∈ tokens → t ∉ declared →
      (tokens.map Prod.fst).Nodup →
      (generateTokenTypesAux declared tokens m).2 t = some c := by
  induction tokens with
  | nil => intro m h _ _; exact absurd h (List.not_mem_nil _)
  | cons ti rest ih =>
    intro m hmem hnd hnodup
    obtain ⟨tok, idx⟩ := ti
    have hnodup' : (rest.map Prod.fst).Nodup := (List.nodup_cons.mp (by simpa using hnodup)).2
    have hhead : tok ∉ rest.map Prod.fst := (List.nodup_cons.mp (by simpa using hnodup)).1
    rcases List.mem_cons.mp hmem with heq | hrest
    · injection heq with h1 h2
      subst h1
      subst h2
      have step : (generateTokenTypesAux declared ((t, c) :: rest) m).2
          = (generateTokenTypesAux declared rest
              (fun x => if x = t then some c else m x)).2 := by
        by_cases hS : t = "$"
        · subst hS
          simp [generateTokenTypesAux, hnd]
        · simp [generateTokenTypesAux, hnd, hS]
      rw [step]
      have hall : ∀ c2 : Nat, (t, c2) ∈ rest → t ∈ declared := by
        intro c2 hc2
        exact absurd (by simpa using List.mem_map_of_mem Prod.fst hc2) hhead
      rw [generateTokenTypesAux_snd_preserved declared rest t _ hall]
      simp
    · by_cases hd : tok ∈ declared
      · have step : (generateTokenTypesAux declared ((tok, idx) :: rest) m).2
            = (generateTokenTypesAux declared rest m).2 := by
          simp [generateTokenTypesAux, hd]
        rw [step]
        exact ih m hrest hnd hnodup'
      · have step : (generateTokenTypesAux declared ((tok, idx) :: rest) m).2
            = (generateTokenTypesAux declared rest
                (fun x => if x = tok then some idx else m x)).2 := by
          by_cases hS : tok = "$"
          · subst hS
            simp [generateTokenTypesAux, hd]
          · simp [generateTokenTypesAux, hd, hS]
        rw [step]
        exact ih _ hrest hnd hnodup'

/-- `_getParamsInfo` produces one entry per right-hand-side position. -/
theorem getParamsInfoAux_length (isTok : String → Bool) (action : String) :
    ∀ (l : List String) (k : Nat),
      (getParamsInfoAux isTok action l k).length = l.length := by
  intro l
  induction l with
  | nil => intro k; rfl
  | cons s rest ih => intro k; simp [getParamsInfoAux, ih]

/-- The entry of `_getParamsInfo` at offset `j` describes placeholder
`_(k + j + 1)`: its use-flag tests the action text for that placeholder and
its token-flag classifies the symbol at offset `j`. -/
theorem getParamsInfoAux_getD (isTok : String → Bool) (action : String) :
    ∀ (l : List String) (k j : Nat), j < l.length →
      (getParamsInfoAux isTok action l k).getD j ("", ⟨false, false⟩)
        = ("_" ++ toString (k + j + 1),
           ⟨strContains action ("_" ++ toString (k + j + 1)),
            isTok (l.getD j "")⟩) := by
  intro l
  induction l with
  | nil => intro k j h; exact absurd h (Nat.not_lt_zero j)
  | cons s rest ih =>
    intro k j h
    cases j with
    | zero => rfl
    | succ j2 =>
      show (getParamsInfoAux isTok action rest (k + 1)).getD j2 _ = _
      rw [ih (k + 1) j2 (by simpa using h)]
      have he : k + 1 + j2 + 1 = k + (j2 + 1) + 1 := by omega
      rw [he]
      rfl

/-- In-bounds `getD` over `reverse ∘ map`: position `i` of the mapped
reversal is the image of the source entry at position `length - 1 - i`. -/
theorem getD_map_reverse {α β : Type} (f : α → β) (l : List α) (d : β)
    (d2 : α) (i : Nat) (h : i < l.length) :
    (l.reverse.map f).getD i d = f (l.getD (l.length - 1 - i) d2) := by
  have h1 : i < (l.reverse.map f).length := by simpa using h
  have h2 : i < l.reverse.length := by simpa using h
  have h3 : l.length - 1 - i < l.length := by omega
  rw [List.getD_eq_getElem _ _ h1, List.getD_eq_getElem _ _ h3]
  rw [List.getElem_map, List.getElem_reverse]

/-- C1: for a non-epsilon production with `K` right-hand symbols, the
generated prologue pops exactly `K` stack slots in strictly reverse position
order — the `i`-th emitted pop handles position `K - 1 - i`, binding the
local `_(K-i)` only when the action text references that placeholder
(pop-and-discard otherwise), and popping the token stack iff the position's
symbol is a token or the production propagates a token (value stack
otherwise) — and the epilogue pushes exactly one result, onto the token stack
iff the production propagates a token. -/
theorem c1_prologue_epilogue_stack_discipline (isTok : String → Bool)
    (p : Production) (action : String) (hE : p.isEpsilon = false) :
    (generateHandlerPrologueLines p (getParamsInfo isTok p action)).length = p.rhs.length
    ∧ (∀ i, i < p.rhs.length →
        (generateHandlerPrologueLines p (getParamsInfo isTok p action)).getD i ""
          = (if (isTok (p.rhs.getD (p.rhs.length - 1 - i) "")
                  || p.derivesPropagatingToken) = true then
               if strContains action ("_" ++ toString (p.rhs.length - i)) = true then
                 "auto " ++ ("_" ++ toString (p.rhs.length - i)) ++ " = POP_T();"
               else "parser.tokensStack.pop_back();"
             else
               if strContains action ("_" ++ toString (p.rhs.length - i)) = true then
                 "auto " ++ ("_" ++ toString (p.rhs.length - i)) ++ " = POP_V();"
               else "parser.valuesStack.pop_back();"))
    ∧ (∀ a : String, generateHandlerEpilogue p a
        = a ++ "\n\n // Semantic action epilogue.\n"
          ++ (if p.derivesPropagatingToken = true then "PUSH_TR();\n"
              else "PUSH_VR();\n"))
    ∧ countSub ("PUSH").data
        (if p.derivesPropagatingToken = true then ("PUSH_TR();\n" : String).data
         else ("PUSH_VR();\n" : String).data) = 1 := by
  have hinfo : getParamsInfo isTok p action = getParamsInfoAux isTok action p.rhs 0 := by
    simp [getParamsInfo, hE]
  have hlen : (getParamsInfoAux isTok action p.rhs 0).length = p.rhs.length :=
    getParamsInfoAux_length isTok action p.rhs 0
  refine ⟨?_, ?_, ?_, ?_⟩
  · simp [generateHandlerPrologueLines, hinfo, hlen]
  · intro i hi
    unfold generateHandlerPrologueLines
    rw [hinfo]
    rw [getD_map_reverse (fun x => popLine p x.1 x.2) _ ""
      ("", ⟨false, false⟩) i (by rw [hlen]; exact hi)]
    rw [hlen]
    rw [getParamsInfoAux_getD isTok action p.rhs 0 (p.rhs.length - 1 - i) (by omega)]
    have he : 0 + (p.rhs.length - 1 - i) + 1 = p.rhs.length - i := by omega
    rw [he]
    rfl
  · intro a
    unfold generateHandlerEpilogue
    cases hp : p.derivesPropagatingToken
    · simp only [Bool.false_eq_true, if_false, String.append_assoc]
      rw [show ("PUSH_VR" : String) ++ "();\n" = "PUSH_VR();\n" from rfl]
    · simp only [if_true, String.append_assoc]
      rw [show ("PUSH_TR" : String) ++ "();\n" = "PUSH_TR();\n" from rfl]
  · cases hp : p.derivesPropagatingToken
    · simp only [Bool.false_eq_true, if_false]
      decide
    · simp only [if_true]
      decide

/-- Witness for C1 at a concrete production `X → a B` with `a` a token, no
token propagation and action text `_2`: two pops are generated, first the
bound value-stack pop for position 2, then the discarding token-stack pop for
position 1, and the epilogue pushes once onto the value stack. -/
theorem c1_witness :
    (generateHandlerPrologueLines ⟨["a", "B"], false, false, none⟩
      (getParamsInfo (fun s => s == "a") ⟨["a", "B"], false, false, none⟩ "_2")).length = 2
    ∧ (generateHandlerPrologueLines ⟨["a", "B"], false, false, none⟩
      (getParamsInfo (fun s => s == "a") ⟨["a", "B"], false, false, none⟩ "_2")).getD 0 ""
        = "auto _2 = POP_V();"
    ∧ (generateHandlerPrologueLines ⟨["a", "B"], false, false, none⟩
      (getParamsInfo (fun s => s == "a") ⟨["a", "B"], false, false, none⟩ "_2")).getD 1 ""
        = "parser.tokensStack.pop_back();"
    ∧ generateHandlerEpilogue ⟨["a", "B"], false, false, none⟩ "x;"
        = "x;\n\n // Semantic action epilogue.\nPUSH_VR();\n"
    ∧ countSub ("PUSH").data (("PUSH_VR();\n" : String)).data = 1 := by
  have h := c1_prologue_epilogue_stack_discipline (fun s => s == "a")
    ⟨["a", "B"], false, false, none⟩ "_2" rfl
  refine ⟨h.1, ?_, ?_, ?_, ?_⟩
  · rw [h.2.1 0 (by decide)]
    decide
  · rw [h.2.1 1 (by decide)]
    decide
  · rw [h.2.2.1 "x;"]
    decide
  · have := h.2.2.2
    simpa using this

/-- Dropping a prefix by a predicate never lengthens a list. -/
theorem length_dropWhile_le_self (p : Char → Bool) (l : List Char) :
    (List.dropWhile p l).length ≤ l.length := by
  induction l with
  | nil => simp
  | cons a t ih =>
    rw [List.dropWhile_cons]
    split
    · simp
      omega
    · simp

/-- A successful regex match at the head of `after` consumes at least the
whitespace and the terminating semicolon: the remaining text is strictly
shorter. -/
theorem matchSpaceTok_rest_lt {after tok rest : List Char}
    (h : matchSpaceTok after = some (tok, rest)) : rest.length < after.length := by
  simp only [matchSpaceTok] at h
  by_cases hws0 : (List.takeWhile isJsSpace after).length = 0
  · rw [if_pos hws0] at h
    exact absurd h (by simp)
  · rw [if_neg hws0] at h
    split at h
    · exact absurd h (by simp)
    · next c r hdw =>
      have hlen : r.length + 1 ≤ after.length := by
        have hl := length_dropWhile_le_self isJsSpace after
        rw [hdw] at hl
        simpa using hl
      by_cases hcs : c = ';'
      · rw [if_pos hcs] at h
        by_cases h2 : 2 ≤ (List.takeWhile isJsSpace after).length
        · rw [if_pos h2] at h
          injection h with hp
          injection hp with hp1 hp2
          subst hp2
          omega
        · rw [if_neg h2] at h
          exact absurd h (by simp)
      · rw [if_neg hcs] at h
        split at h
        · exact absurd h (by simp)
        · next d r2 hdw2 =>
          injection h with hp
          injection hp with hp1 hp2
          subst hp2
          have hb : r2.length + 1 ≤ r.length + 1 := by
            have hl2 := length_dropWhile_le_self (fun x => x != ';') (c :: r)
            rw [hdw2] at hl2
            simpa using hl2
          omega

/-- A successful match of the full regex leaves a strictly shorter
remainder. -/
theorem tryMatchReturn_rest_lt {cs tok rest : List Char}
    (h : tryMatchReturn cs = some (tok, rest)) : rest.length < cs.length := by
  unfold tryMatchReturn at h
  split at h
  · next after =>
    have := matchSpaceTok_rest_lt h
    simp
    omega
  · exact absurd h (by simp)

/-- The scan of the empty text is empty at any fuel. -/
theorem scopeReturnsFuel_nil (m : String → Option Nat) :
    ∀ fuel : Nat, scopeReturnsFuel m fuel [] = [] := by
  intro fuel
  cases fuel with
  | zero => rfl
  | succ f => rfl

/-- Fuel irrelevance: any fuel at least the length of the text produces the
same scan result, since every step consumes at least one character. -/
theorem scopeReturnsFuel_congr (m : String → Option Nat) :
    ∀ (f1 : Nat) (cs : List Char) (f2 : Nat), cs.length ≤ f1 → cs.length ≤ f2 →
      scopeReturnsFuel m f1 cs = scopeReturnsFuel m f2 cs := by
  intro f1
  induction f1 with
  | zero =>
    intro cs f2 h1 _
    have : cs = [] := List.eq_nil_of_length_eq_zero (Nat.le_zero.mp h1)
    subst this
    rw [scopeReturnsFuel_nil, scopeReturnsFuel_nil]
  | succ f1 ih =>
    intro cs f2 h1 h2
    cases cs with
    | nil => rw [scopeReturnsFuel_nil, scopeReturnsFuel_nil]
    | cons c t =>
      cases f2 with
      | zero => exact absurd h2 (by simp)
      | succ f2 =>
        cases htm : tryMatchReturn (c :: t) with
        | some x =>
          obtain ⟨tok, rest⟩ := x
          have hr := tryMatchReturn_rest_lt htm
          simp only [scopeReturnsFuel, htm]
          rw [ih rest f2 (by simp at hr h1; omega) (by simp at hr h2; omega)]
        | none =>
          simp only [scopeReturnsFuel, htm]
          rw [ih t f2 (by simp at h1; omega) (by simp at h2; omega)]

/-- Up to the first `;`, a semicolon-free block is taken whole. -/
theorem takeWhile_neq_semi (v w : List Char) (h : ';' ∉ v) :
    (v ++ ';' :: w).takeWhile (fun x => x != ';') = v := by
  induction v with
  | nil => simp [List.takeWhile_cons]
  | cons a v2 ih =>
    have ha : a ≠ ';' := fun he => h (he ▸ List.mem_cons_self a v2)
    have h2 : ';' ∉ v2 := fun hm => h (List.mem_cons_of_mem a hm)
    simp only [List.cons_append, List.takeWhile_cons]
    rw [if_pos (by simp [ha]), ih h2]

/-- Dropping up to the first `;` of a semicolon-free block leaves the
semicolon and the tail. -/
theorem dropWhile_neq_semi (v w : List Char) (h : ';' ∉ v) :
    (v ++ ';' :: w).dropWhile (fun x => x != ';') = ';' :: w := by
  induction v with
  | nil => simp [List.dropWhile_cons]
  | cons a v2 ih =>
    have ha : a ≠ ';' := fun he => h (he ▸ List.mem_cons_self a v2)
    have h2 : ';' ∉ v2 := fun hm => h (List.mem_cons_of_mem a hm)
    simp only [List.cons_append, List.dropWhile_cons]
    rw [if_pos (by simp [ha]), ih h2]

/-- The regex matches a statement `return <value>;` at the start of the text:
the captured token is the whole value (the value starting with a
non-whitespace, non-semicolon character and containing no semicolon) and the
match consumes through the terminating semicolon. -/
theorem tryMatchReturn_stmt (c : Char) (v suffix : List Char)
    (hsp : isJsSpace c = false) (hc : c ≠ ';') (hv : ';' ∉ v) :
    tryMatchReturn (("return ").data ++ (c :: v) ++ ';' :: suffix)
      = some (c :: v, suffix) := by
  show tryMatchReturn
    ('r' :: 'e' :: 't' :: 'u' :: 'r' :: 'n' :: ' ' :: ((c :: v) ++ ';' :: suffix)) = _
  show matchSpaceTok (' ' :: ((c :: v) ++ ';' :: suffix)) = _
  have hvc : ';' ∉ c :: v := by
    intro hm
    rcases List.mem_cons.mp hm with he | hm2
    · exact hc he.symm
    · exact hv hm2
  have htw : (' ' :: ((c :: v) ++ ';' :: suffix)).takeWhile isJsSpace = [' '] := by
    simp only [List.takeWhile_cons, List.cons_append]
    rw [if_pos (by decide), if_neg (by simp [hsp])]
  have hdw : (' ' :: ((c :: v) ++ ';' :: suffix)).dropWhile isJsSpace
      = (c :: v) ++ ';' :: suffix := by
    simp only [List.dropWhile_cons, List.cons_append]
    rw [if_pos (by decide), if_neg (by simp [hsp])]
  simp only [matchSpaceTok, htw, hdw]
  rw [if_neg (by decide)]
  simp only [List.cons_append]
  rw [if_neg (by simpa using hc)]
  have ht2 : ((c :: v) ++ ';' :: suffix).takeWhile (fun x => x != ';') = c :: v :=
    takeWhile_neq_semi (c :: v) suffix hvc
  have hd2 : ((c :: v) ++ ';' :: suffix).dropWhile (fun x => x != ';') = ';' :: suffix :=
    dropWhile_neq_semi (c :: v) suffix hvc
  simp only [List.cons_append] at ht2 hd2
  rw [ht2, hd2]

/-- The scan of an empty text is empty. -/
theorem scopeReturns_nil (m : String → Option Nat) : scopeReturns m [] = [] := rfl

/-- One successful scan step: the replacement is emitted and the scan resumes
after the match. -/
theorem scopeReturnsFuel_succ_some {m : String → Option Nat} {fuel : Nat}
    {cs tok rest : List Char} (h : tryMatchReturn cs = some (tok, rest)) :
    scopeReturnsFuel m (fuel + 1) cs
      = replacementFor m tok ++ scopeReturnsFuel m fuel rest := by
  simp only [scopeReturnsFuel, h]

/-- One `return <value>;` statement at the start of the text is rewritten to
the replacement for its value, and the scan continues with the rest of the
text. -/
theorem scopeReturns_stmt (m : String → Option Nat) (c : Char)
    (v suffix : List Char) (hsp : isJsSpace c = false) (hc : c ≠ ';')
    (hv : ';' ∉ v) :
    scopeReturns m (("return ").data ++ (c :: v) ++ ';' :: suffix)
      = replacementFor m (c :: v) ++ scopeReturns m suffix := by
  have hm := tryMatchReturn_stmt c v suffix hsp hc hv
  have hbig : (("return ").data ++ (c :: v) ++ ';' :: suffix).length
      = suffix.length + v.length + 9 := by
    simp [List.length_append]
    omega
  unfold scopeReturns
  rw [hbig]
  have h9 : suffix.length + v.length + 9 = (suffix.length + v.length + 8) + 1 := by omega
  rw [h9]
  rw [scopeReturnsFuel_succ_some hm]
  rw [scopeReturnsFuel_congr m (suffix.length + v.length + 8) suffix suffix.length
    (by omega) (by omega)]

/-- C5: in the `return`-statement rewrite, a statement whose value strips to
the literal `%empty`, `nullptr` or `NULL` is rewritten to return the reserved
empty sentinel `TokenType::__EMPTY` regardless of the terminal-literal
reverse map, and a statement whose stripped value is recorded in that map
(and is not one of the sentinels) is rewritten to return the generated member
`TokenType::TOKEN_TYPE_<code>`; the scan continues over the rest of the
text. -/
theorem c5_return_sentinel_and_literal_rewrite (m : String → Option Nat)
    (c : Char) (v suffix : List Char)
    (hsp : isJsSpace c = false) (hc : c ≠ ';') (hv : ';' ∉ v) :
    ((String.mk (stripQuotes (c :: v)) = "%empty"
        ∨ String.mk (stripQuotes (c :: v)) = "nullptr"
        ∨ String.mk (stripQuotes (c :: v)) = "NULL") →
      scopeReturns m (("return ").data ++ (c :: v) ++ ';' :: suffix)
        = ("return TokenType::__EMPTY;").data ++ scopeReturns m suffix)
    ∧ (∀ code : Nat,
        ¬(String.mk (stripQuotes (c :: v)) = "%empty"
          ∨ String.mk (stripQuotes (c :: v)) = "nullptr"
          ∨ String.mk (stripQuotes (c :: v)) = "NULL") →
        m (String.mk (stripQuotes (c :: v))) = some code →
        scopeReturns m (("return ").data ++ (c :: v) ++ ';' :: suffix)
          = ("return TokenType::TOKEN_TYPE_" ++ toString code ++ ";").data
            ++ scopeReturns m suffix) := by
  constructor
  · intro hspec
    rw [scopeReturns_stmt m c v suffix hsp hc hv]
    simp only [replacementFor]
    rw [if_pos hspec]
  · intro code hnspec hm
    rw [scopeReturns_stmt m c v suffix hsp hc hv]
    simp only [replacementFor]
    rw [if_neg hnspec, hm]

/-- Witness for C5: `return %empty;` becomes the empty sentinel even with a
nonempty reverse map, and a quoted literal recorded in the map becomes its
generated `TOKEN_TYPE` member. -/
theorem c5_witness :
    scopeReturns (fun t => if t = "ab" then some 7 else none)
        (("return %empty;").data)
      = ("return TokenType::__EMPTY;").data
    ∧ scopeReturns (fun t => if t = "ab" then some 7 else none)
        (("return " ++ sqS ++ "ab" ++ sqS ++ ";").data)
      = ("return TokenType::TOKEN_TYPE_7;").data := by
  constructor
  · have h := (c5_return_sentinel_and_literal_rewrite
      (fun t => if t = "ab" then some 7 else none) '%' ("empty").data []
      (by decide) (by decide) (by decide)).1 (by decide)
    rw [show (("return %empty;").data)
        = ("return ").data ++ ('%' :: ("empty").data) ++ ';' :: [] from rfl]
    rw [h, scopeReturns_nil, List.append_nil]
  · have h := (c5_return_sentinel_and_literal_rewrite
      (fun t => if t = "ab" then some 7 else none) sq ('a' :: 'b' :: sq :: []) []
      (by decide) (by decide) (by decide)).2 7 (by decide) (by decide)
    rw [show (("return " ++ sqS ++ "ab" ++ sqS ++ ";").data)
        = ("return ").data ++ (sq :: ('a' :: 'b' :: sq :: [])) ++ ';' :: [] from rfl]
    rw [h, scopeReturns_nil, List.append_nil]
    decide

/-- C9: a `return <value>;` statement whose stripped value is neither one of
the sentinels `%empty`, `nullptr`, `NULL` nor a key of the terminal-literal
reverse map is qualified as is: it is rewritten to
`return TokenType::<stripped value>;`, whatever expression the value is. -/
theorem c9_default_token_type_qualification (m : String → Option Nat)
    (c : Char) (v suffix : List Char)
    (hsp : isJsSpace c = false) (hc : c ≠ ';') (hv : ';' ∉ v)
    (hnspec : ¬(String.mk (stripQuotes (c :: v)) = "%empty"
      ∨ String.mk (stripQuotes (c :: v)) = "nullptr"
      ∨ String.mk (stripQuotes (c :: v)) = "NULL"))
    (hm : m (String.mk (stripQuotes (c :: v))) = none) :
    scopeReturns m (("return ").data ++ (c :: v) ++ ';' :: suffix)
      = ("return TokenType::" ++ String.mk (stripQuotes (c :: v)) ++ ";").data
        ++ scopeReturns m suffix := by
  rw [scopeReturns_stmt m c v suffix hsp hc hv]
  simp only [replacementFor]
  rw [if_neg hnspec, hm]

/-- Witness for C9: with an empty reverse map, `return FOO;` becomes
`return TokenType::FOO;`, and the quoted `return "ns::x";` becomes the
stripped `return TokenType::ns::x;`. -/
theorem c9_witness :
    scopeReturns (fun _ => none) (("return FOO;").data)
      = ("return TokenType::FOO;").data
    ∧ scopeReturns (fun _ => none) (("return \"ns::x\";").data)
      = ("return TokenType::ns::x;").data := by
  constructor
  · have h := c9_default_token_type_qualification (fun _ => none)
      'F' ("OO").data [] (by decide) (by decide) (by decide) (by decide) rfl
    rw [show (("return FOO;").data)
        = ("return ").data ++ ('F' :: ("OO").data) ++ ';' :: [] from rfl]
    rw [h, scopeReturns_nil, List.append_nil]
    decide
  · have h := c9_default_token_type_qualification (fun _ => none)
      '"' ("ns::x\"").data [] (by decide) (by decide) (by decide) (by decide) rfl
    rw [show (("return \"ns::x\";").data)
        = ("return ").data ++ ('"' :: ("ns::x\"").data) ++ ';' :: [] from rfl]
    rw [h, scopeReturns_nil, List.append_nil]
    decide

/-- C10: after token-type generation over a terminal set containing the
undeclared sentinel `$` with code `c`, the literal `$` is recorded in the
terminal-literal reverse map with code `c`, and consequently the full
placeholder rewrite of the handler body `return <single-quoted dollar>;`
yields `return TokenType::TOKEN_TYPE_<c>;` rather than
`return TokenType::__EOF;`. -/
theorem c10_sentinel_literal_rewrite (declared : List String)
    (tokens : List (String × Nat)) (m0 : String → Option Nat) (code : Nat)
    (hmem : ("$", code) ∈ tokens) (hnd : "$" ∉ declared)
    (hnodup : (tokens.map Prod.fst).Nodup) :
    (generateTokenTypes declared tokens m0).2 "$" = some code
    ∧ scopeVars (generateTokenTypes declared tokens m0).2
        ("return " ++ sqS ++ "$" ++ sqS ++ ";")
      = "return TokenType::TOKEN_TYPE_" ++ toString code ++ ";" := by
  have hmap : (generateTokenTypes declared tokens m0).2 "$" = some code :=
    generateTokenTypesAux_snd_recorded declared tokens "$" code m0 hmem hnd hnodup
  refine ⟨hmap, ?_⟩
  have hbody : ("return " ++ sqS ++ "$" ++ sqS ++ ";").data
      = ("return ").data ++ (sq :: ('$' :: sq :: [])) ++ ';' :: [] := rfl
  unfold scopeVars scopeVarsL
  rw [hbody]
  rw [show replaceYytext (("return ").data ++ (sq :: ('$' :: sq :: [])) ++ ';' :: [])
      = ("return ").data ++ (sq :: ('$' :: sq :: [])) ++ ';' :: [] from by decide]
  rw [show replaceUnderscoreAux none
        (("return ").data ++ (sq :: ('$' :: sq :: [])) ++ ';' :: [])
      = ("return ").data ++ (sq :: ('$' :: sq :: [])) ++ ';' :: [] from by decide]
  rw [scopeReturns_stmt _ sq ('$' :: sq :: []) [] (by decide) (by decide) (by decide)]
  rw [scopeReturns_nil, List.append_nil]
  simp only [replacementFor]
  rw [show String.mk (stripQuotes (sq :: ('$' :: sq :: []))) = "$" from by decide]
  rw [if_neg (by decide), hmap]

/-- Witness for C10: on the terminal set `{$ ↦ 0, + ↦ 1}` with no declared
tokens, the sentinel is recorded with code `0` and the quoted-dollar handler
body rewrites to the generated `TOKEN_TYPE_0` member. -/
theorem c10_witness :
    (generateTokenTypes [] [("$", 0), ("+", 1)] (fun _ => none)).2 "$" = some 0
    ∧ scopeVars (generateTokenTypes [] [("$", 0), ("+", 1)] (fun _ => none)).2
        ("return " ++ sqS ++ "$" ++ sqS ++ ";")
      = "return TokenType::TOKEN_TYPE_0;" := by
  have h := c10_sentinel_literal_rewrite [] [("$", 0), ("+", 1)] (fun _ => none) 0
    (by simp) (by simp) (by simp)
  exact ⟨h.1, by rw [h.2]; rfl⟩

/-- Counterexample to C7: on the terminal set `{$ ↦ 0}` with no declared
named tokens, the `$` sentinel is emitted through the reserved `__EOF`
branch — not the placeholder branch — and yet the terminal-literal reverse
map does record `$`; so the reverse mapping is not recorded only in the
placeholder case. -/
theorem c7_counterexample_sentinel_recorded :
    (generateTokenTypes [] [("$", 0)] (fun _ => none)).1 = ["__EOF = 0"]
    ∧ (generateTokenTypes [] [("$", 0)] (fun _ => none)).2 "$" ≠ none := by
  constructor
  · rfl
  · decide

/-- C7 (amended): for every terminal, in code order, token-type generation
emits `<name> = <code>` for a declared named token, the reserved
`__EOF = <code>` for the undeclared end-of-input sentinel `$`, and the
generated placeholder `TOKEN_TYPE_<code> = <code>` otherwise; the reverse
mapping from the terminal's literal string to its code is recorded for every
terminal not declared as a named token — including the `$` sentinel — and
only for those. -/
theorem c7_token_type_emission_amended (declared : List String)
    (tokens : List (String × Nat)) (m0 : String → Option Nat) :
    (generateTokenTypes declared tokens m0).1 = tokens.map (emitRule declared)
    ∧ (∀ (t : String) (c : Nat), (t, c) ∈ tokens → t ∉ declared →
        (tokens.map Prod.fst).Nodup →
        (generateTokenTypes declared tokens m0).2 t = some c)
    ∧ (∀ t : String, (∀ c : Nat, (t, c) ∈ tokens → t ∈ declared) →
        (generateTokenTypes declared tokens m0).2 t = m0 t) :=
  ⟨generateTokenTypesAux_fst declared tokens m0,
   fun t c hmem hnd hnodup =>
     generateTokenTypesAux_snd_recorded declared tokens t c m0 hmem hnd hnodup,
   fun t hall => generateTokenTypesAux_snd_preserved declared tokens t m0 hall⟩

/-- Witness for C7 (amended): with `NUM` declared and terminals
`$ ↦ 0`, `+ ↦ 1`, `NUM ↦ 2`, the emissions are
`__EOF = 0`, `TOKEN_TYPE_1 = 1`, `NUM = 2`; the non-declared `+` and `$` are
recorded in the reverse map while the declared `NUM` is not. -/
theorem c7_witness :
    (generateTokenTypes ["NUM"] [("$", 0), ("+", 1), ("NUM", 2)] (fun _ => none)).1
      = ["__EOF = 0", "TOKEN_TYPE_1 = 1", "NUM = 2"]
    ∧ (generateTokenTypes ["NUM"] [("$", 0), ("+", 1), ("NUM", 2)]
        (fun _ => none)).2 "+" = some 1
    ∧ (generateTokenTypes ["NUM"] [("$", 0), ("+", 1), ("NUM", 2)]
        (fun _ => none)).2 "$" = some 0
    ∧ (generateTokenTypes ["NUM"] [("$", 0), ("+", 1), ("NUM", 2)]
        (fun _ => none)).2 "NUM" = none := by
  have h := c7_token_type_emission_amended ["NUM"]
    [("$", 0), ("+", 1), ("NUM", 2)] (fun _ => none)
  refine ⟨by rw [h.1]; rfl, ?_, ?_, ?_⟩
  · exact h.2.1 "+" 1 (by simp) (by simp) (by simp)
  · exact h.2.1 "$" 0 (by simp) (by simp) (by simp)
  · exact h.2.2 "NUM" (by intro c hc; simp)

end CppGen
